import Mathlib

/-!
Shallow embedding of the chunking engine in
`src/python_example/src/chunking.py` (classes `TextChunker`,
`MarkdownChunker`, dataclass `Chunk`).

Python strings are modelled as `List Char`; Python `str` operations
(`split`, `strip`, slicing, `join`) are reimplemented below with Python
semantics.  Sizes are `Nat` (all theorems use non-negative
configuration values, matching every call site in the repository).
-/

namespace RagLocal

abbrev Text := List Char

/-- ASCII whitespace recognised by Python `str.strip()` and by the
regex class `\s` (for the ASCII inputs used throughout). -/
def isPySpace (c : Char) : Bool :=
  c = ' ' || c = '\t' || c = '\n' || c = '\r' || c = '\x0b' || c = '\x0c'

/-- Python `s.strip()`: drop whitespace from both ends. -/
def pyStrip (l : Text) : Text :=
  ((l.dropWhile isPySpace).reverse.dropWhile isPySpace).reverse

/-- Python `s.split(sep)` for non-empty `sep`, fuelled so that it is
structural (fuel `≥ l.length` is always enough; every call below passes
`l.length`).  For `sep = []` Python raises `ValueError`; that case is
modelled as "no split" and is never exercised by a theorem. -/
def pySplitF (sep : Text) : Nat → Text → List Text
  | _, [] => [[]]
  | 0, l => [l]
  | fuel + 1, c :: cs =>
    if sep ≠ [] ∧ (c :: cs).take sep.length = sep then
      [] :: pySplitF sep fuel ((c :: cs).drop sep.length)
    else
      match pySplitF sep fuel cs with
      | [] => [[c]]
      | p :: ps => (c :: p) :: ps

def pySplit (sep l : Text) : List Text :=
  pySplitF sep l.length l

/-- Python `str.join`: `pyJoin sep parts` is `sep.join(parts)`. -/
def pyJoin (sep : Text) : List Text → Text
  | [] => []
  | [p] => p
  | p :: q :: ps => p ++ sep ++ pyJoin sep (q :: ps)

/-- Python `l[-k:]` for `k ≥ 1`: the suffix of length `min k l.length`.
(Only ever used with positive `k`, so the Python `l[-0:]` quirk does not
arise.) -/
def pyTakeLast (k : Nat) (l : Text) : Text :=
  l.drop (l.length - k)

/-- `for i in range(0, len(text), cs): text[i:i+cs]` — fixed-width
character slices, fuelled (fuel `≥ text.length` suffices for `cs ≥ 1`).
Python raises `ValueError` when the step `cs` is 0; that case is
modelled as `[]` and never exercised by a theorem. -/
def charSlicesF (cs : Nat) : Nat → Text → List Text
  | _, [] => []
  | 0, _ => []
  | fuel + 1, l => l.take cs :: charSlicesF cs fuel (l.drop cs)

def charSlices (cs : Nat) (l : Text) : List Text :=
  if cs = 0 then [] else charSlicesF cs l.length l

/-- Metadata values: ints and strings (the only kinds the code stores). -/
inductive MetaVal where
  | nat (n : Nat)
  | str (s : Text)
deriving DecidableEq, Repr

/-- Dict lookup on an association list. -/
def findMeta (k : String) : List (String × MetaVal) → Option MetaVal
  | [] => none
  | (k', v) :: rest => if k' = k then some v else findMeta k rest

/-- Python `{**base, **new}` modelled up to key/value observations:
entries of `base` whose key reappears in `new` are overridden. -/
def mergeMeta (base new : List (String × MetaVal)) : List (String × MetaVal) :=
  base.filter (fun p => (findMeta p.1 new).isNone) ++ new

/-- Dataclass `Chunk` (chunking.py lines 10-16). -/
structure Chunk where
  text : Text
  metadata : List (String × MetaVal)
  chunkId : Nat
  sourceDocId : Option String := none
deriving DecidableEq, Repr

/-- `TextChunker.__init__` stored state (lines 22-38): the values are
stored without any validation. -/
structure Config where
  chunkSize : Nat
  chunkOverlap : Nat
  separator : Text
deriving DecidableEq, Repr

namespace TextChunker

/-- `self.separators` (lines 41-48): the fixed fallback hierarchy. -/
def separators : List Text :=
  [['\n', '\n'], ['\n'], ['.', ' '], [',', ' '], [' '], []]

/-- Inner loop of `_split_large_text` (lines 154-163): greedy
accumulation of `parts` under one separator; returns the chunks this
attempt appends. -/
def accumParts (cs : Nat) (sep : Text) : List Text → Text → List Text
  | [], current => if current ≠ [] then [current] else []
  | p :: ps, current =>
    if current.length + p.length + sep.length ≤ cs then
      accumParts cs sep ps (current ++ (if current ≠ [] then sep else []) ++ p)
    else
      (if current ≠ [] then [current] else []) ++ accumParts cs sep ps p

/-- `_split_large_text`'s separator loop (lines 146-173).  `chunks` is
NOT reset between separator attempts in the source, so each attempt
appends to the list accumulated by the previous ones, and the
`all(len(c) <= chunk_size)` test ranges over the whole accumulated
list.  The final `""` separator entry fails the `if separator:` test
and its body (including the `all` test) is skipped, after which the
character slices of `text` are appended. -/
def splitLargeLoop (cs : Nat) (text : Text) : List Text → List Text → List Text
  | [], chunks => chunks ++ charSlices cs text
  | sep :: rest, chunks =>
    if sep ≠ [] then
      let chunks' := chunks ++ accumParts cs sep (pySplit sep text) []
      if chunks'.all (fun c => c.length ≤ cs) then chunks'
      else splitLargeLoop cs text rest chunks'
    else
      splitLargeLoop cs text rest chunks

/-- `TextChunker._split_large_text` (lines 136-173). -/
def splitLargeText (cfg : Config) (text : Text) : List Text :=
  splitLargeLoop cfg.chunkSize text (separators.drop 1) []

/-- `_apply_overlap`, middle and last positions (lines 199-210).
`prev` is the previous chunk of the pre-overlap list.  Python
`prev_chunk[-self.chunk_overlap//2:]` floor-divides the negated
overlap, so the suffix taken has length `⌈o/2⌉ = (o+1)/2`, while
`next_chunk[:self.chunk_overlap//2]` takes `o/2 = ⌊o/2⌋`. -/
def applyOverlapMid (o : Nat) : Text → List Text → List Text
  | _, [] => []
  | prev, [last] => [pyTakeLast o prev ++ [' '] ++ last]
  | prev, cur :: next :: rest =>
    (pyTakeLast ((o + 1) / 2) prev ++ [' '] ++ cur ++ [' '] ++ next.take (o / 2))
      :: applyOverlapMid o cur (next :: rest)

/-- `TextChunker._apply_overlap` (lines 175-212). -/
def applyOverlap (o : Nat) (chunks : List Text) : List Text :=
  match chunks with
  | [] => chunks
  | [_] => chunks
  | first :: next :: rest =>
    (first ++ [' '] ++ next.take o) :: applyOverlapMid o first (next :: rest)

/-- The `for split in splits:` loop of `_recursive_chunk`
(lines 105-128), including the final flush.  Flushed chunks are emitted
in source order. -/
def recChunkLoop (cfg : Config) : List Text → Text → List Text
  | [], current => if current ≠ [] then [pyStrip current] else []
  | s :: ss, current =>
    if current.length + s.length + cfg.separator.length > cfg.chunkSize then
      (if current ≠ [] then [pyStrip current] else []) ++
        (if s.length > cfg.chunkSize then
          splitLargeText cfg s ++ recChunkLoop cfg ss []
        else
          recChunkLoop cfg ss s)
    else
      recChunkLoop cfg ss (if current ≠ [] then current ++ cfg.separator ++ s else s)

/-- `TextChunker._recursive_chunk` (lines 89-134). -/
def recursiveChunk (cfg : Config) (text : Text) : List Text :=
  let chunks := recChunkLoop cfg (pySplit cfg.separator text) []
  if cfg.chunkOverlap > 0 then applyOverlap cfg.chunkOverlap chunks else chunks

/-- `TextChunker.chunk_text` (lines 50-87). -/
def chunkText (cfg : Config) (md : List (String × MetaVal)) (text : Text) : List Chunk :=
  if text = [] then []
  else
    let chunks := recursiveChunk cfg text
    chunks.enum.map (fun p =>
      { text := p.2
        metadata := mergeMeta md
          [("chunk_index", MetaVal.nat p.1),
           ("total_chunks", MetaVal.nat chunks.length),
           ("chunk_size", MetaVal.nat p.2.length)]
        chunkId := p.1 })

end TextChunker

namespace MarkdownChunker

/-- One entry of `sections` (lines 239-263): dict with keys `header`,
`level`, `content`. -/
structure MdSection where
  header : Text
  level : Nat
  content : List Text
deriving DecidableEq, Repr

/-- `re.match(r'^(#{1,6})\s+(.*)$', line)` (lines 236, 247).  A run of
7 or more `#` cannot match (after backtracking the character following
the shorter run is another `#`, not `\s`), so taking the maximal run is
equivalent. -/
def headerMatch (line : Text) : Option (Nat × Text) :=
  let n := (line.takeWhile (fun c => c = '#')).length
  if 1 ≤ n ∧ n ≤ 6 then
    let rest := line.drop n
    let ws := rest.takeWhile isPySpace
    if ws ≠ [] then some (n, rest.drop ws.length) else none
  else none

/-- The `for line in lines:` section scan (lines 246-267), including
the final flush of `current_section`. -/
def sectionsLoop : List Text → MdSection → List MdSection
  | [], cur => if cur.content ≠ [] then [cur] else []
  | line :: rest, cur =>
    match headerMatch line with
    | some (lvl, hdr) =>
      (if cur.content ≠ [] then [cur] else []) ++
        sectionsLoop rest ⟨hdr, lvl, [line]⟩
    | none =>
      sectionsLoop rest { cur with content := cur.content ++ [line] }

/-- Section partition of `MarkdownChunker.chunk_text` (lines 236-267):
`lines = text.split('\n')` scanned into sections, starting from the
empty headerless section. -/
def mdSections (text : Text) : List MdSection :=
  sectionsLoop (pySplit ['\n'] text) ⟨[], 0, []⟩

/-- The `for i, section in enumerate(sections):` emission loop
(lines 270-291).  A section whose reconstituted text exceeds
`chunk_size` is delegated to `TextChunker.chunk_text` (whose chunks
carry their own section-local ids); otherwise one chunk is emitted
directly with `chunk_id = len(chunks)` and only the section metadata. -/
def mdEmit (cfg : Config) (md : List (String × MetaVal)) :
    List (Nat × MdSection) → List Chunk → List Chunk
  | [], acc => acc
  | (i, sec) :: rest, acc =>
    let sectionText := pyJoin ['\n'] sec.content
    let sectionMd := mergeMeta md
      [("section_header", MetaVal.str sec.header),
       ("section_level", MetaVal.nat sec.level),
       ("section_index", MetaVal.nat i)]
    if sectionText.length > cfg.chunkSize then
      mdEmit cfg md rest (acc ++ TextChunker.chunkText cfg sectionMd sectionText)
    else
      mdEmit cfg md rest
        (acc ++ [{ text := sectionText, metadata := sectionMd, chunkId := acc.length }])

/-- `MarkdownChunker.chunk_text` (lines 218-292).  Note: unlike the
parent class it has no empty-input guard. -/
def chunkText (cfg : Config) (md : List (String × MetaVal)) (text : Text) : List Chunk :=
  mdEmit cfg md (mdSections text).enum []

end MarkdownChunker

open TextChunker MarkdownChunker

/-! ## Helper definitions and lemmas -/

/-- The chunks `mdEmit` appends when every section fits the budget:
one direct chunk per section, ids counting up from `n`. -/
def directChunks (md : List (String × MetaVal)) :
    List (Nat × MdSection) → Nat → List Chunk
  | [], _ => []
  | (i, sec) :: rest, n =>
    { text := pyJoin ['\n'] sec.content,
      metadata := mergeMeta md
        [("section_header", MetaVal.str sec.header),
         ("section_level", MetaVal.nat sec.level),
         ("section_index", MetaVal.nat i)],
      chunkId := n } :: directChunks md rest (n + 1)

lemma mdEmit_all_fit (cfg : Config) (md : List (String × MetaVal)) :
    ∀ (L : List (Nat × MdSection)) (acc : List Chunk),
      (∀ p ∈ L, (pyJoin ['\n'] p.2.content).length ≤ cfg.chunkSize) →
      mdEmit cfg md L acc = acc ++ directChunks md L acc.length
  | [], acc, _ => by simp [mdEmit, directChunks]
  | (i, sec) :: rest, acc, h => by
    have hfit : (pyJoin ['\n'] sec.content).length ≤ cfg.chunkSize :=
      h (i, sec) (by simp)
    have hrest : ∀ p ∈ rest, (pyJoin ['\n'] p.2.content).length ≤ cfg.chunkSize :=
      fun p hp => h p (by simp [hp])
    simp only [mdEmit]
    rw [if_neg (Nat.not_lt.mpr hfit), mdEmit_all_fit cfg md rest _ hrest]
    simp [directChunks, List.append_assoc]

lemma directChunks_length (md : List (String × MetaVal)) :
    ∀ (L : List (Nat × MdSection)) (n : Nat), (directChunks md L n).length = L.length
  | [], _ => by simp [directChunks]
  | (i, sec) :: rest, n => by
    simp [directChunks, directChunks_length md rest (n + 1)]

lemma directChunks_map_chunkId (md : List (String × MetaVal)) :
    ∀ (L : List (Nat × MdSection)) (n : Nat),
      (directChunks md L n).map Chunk.chunkId = List.range' n L.length
  | [], _ => by simp [directChunks]
  | (i, sec) :: rest, n => by
    simp [directChunks, directChunks_map_chunkId md rest (n + 1),
      List.range'_succ n rest.length 1]

lemma pySplitF_ne_nil (sep : Text) : ∀ (fuel : Nat) (l : Text), pySplitF sep fuel l ≠ []
  | _, [] => by simp [pySplitF]
  | 0, _ :: _ => by simp [pySplitF]
  | fuel + 1, c :: cs => by
    rw [pySplitF]
    split
    · simp
    · cases h : pySplitF sep fuel cs <;> simp

lemma pyJoin_cons_cons (sep : Text) (c : Char) (p : Text) (ps : List Text) :
    pyJoin sep ((c :: p) :: ps) = c :: pyJoin sep (p :: ps) := by
  cases ps <;> simp [pyJoin]

lemma pyJoin_pySplitF (sep : Text) :
    ∀ (fuel : Nat) (l : Text), l.length ≤ fuel →
      pyJoin sep (pySplitF sep fuel l) = l := by
  intro fuel
  induction fuel with
  | zero =>
    intro l hl
    rw [List.length_eq_zero.mp (Nat.le_zero.mp hl)]
    rfl
  | succ f ih =>
    intro l hl
    match l with
    | [] => rfl
    | c :: cs =>
      rw [pySplitF]
      by_cases h : sep ≠ [] ∧ (c :: cs).take sep.length = sep
      · rw [if_pos h]
        have hsep : 1 ≤ sep.length := List.length_pos.mpr h.1
        have hlen : ((c :: cs).drop sep.length).length ≤ f := by
          simp only [List.length_drop, List.length_cons]
          simp only [List.length_cons] at hl
          omega
        obtain ⟨p, ps, hps⟩ : ∃ p ps, pySplitF sep f ((c :: cs).drop sep.length) = p :: ps := by
          cases hx : pySplitF sep f ((c :: cs).drop sep.length) with
          | nil => exact absurd hx (pySplitF_ne_nil sep f _)
          | cons p ps => exact ⟨p, ps, rfl⟩
        have hih := ih ((c :: cs).drop sep.length) hlen
        rw [hps] at hih ⊢
        show pyJoin sep ([] :: p :: ps) = c :: cs
        rw [pyJoin, hih, List.nil_append]
        conv_rhs => rw [← List.take_append_drop sep.length (c :: cs)]
        rw [h.2]
      · rw [if_neg h]
        have hcs : cs.length ≤ f := by
          simp only [List.length_cons] at hl
          omega
        obtain ⟨p, ps, hps⟩ : ∃ p ps, pySplitF sep f cs = p :: ps := by
          cases hx : pySplitF sep f cs with
          | nil => exact absurd hx (pySplitF_ne_nil sep f _)
          | cons p ps => exact ⟨p, ps, rfl⟩
        have hih := ih cs hcs
        rw [hps] at hih ⊢
        rw [pyJoin_cons_cons, hih]

lemma pyJoin_pySplit (sep l : Text) : pyJoin sep (pySplit sep l) = l :=
  pyJoin_pySplitF sep l.length l (Nat.le_refl _)

/-- The buffer accumulated by the greedy loop of `_recursive_chunk`
when no flush occurs: fold the remaining splits onto `acc`, inserting
the separator except onto an empty buffer. -/
def glue (sep : Text) : Text → List Text → Text
  | acc, [] => acc
  | acc, s :: ss => glue sep (if acc ≠ [] then acc ++ sep ++ s else s) ss

lemma glue_length_ge (sep : Text) :
    ∀ (ss : List Text) (acc : Text), acc.length ≤ (glue sep acc ss).length
  | [], acc => by simp [glue]
  | s :: ss, acc => by
    rw [glue]
    by_cases h : acc = []
    · simp [h]
    · rw [if_pos h]
      calc acc.length ≤ (acc ++ sep ++ s).length := by simp
        _ ≤ _ := glue_length_ge sep ss (acc ++ sep ++ s)

lemma glue_of_ne_nil (sep : Text) :
    ∀ (ss : List Text) (acc : Text), acc ≠ [] →
      glue sep acc ss = acc ++ (ss.map (fun s => sep ++ s)).flatten
  | [], acc, _ => by simp [glue]
  | s :: ss, acc, h => by
    rw [glue, if_pos h, glue_of_ne_nil sep ss (acc ++ sep ++ s) (by simp [h])]
    simp

lemma pyJoin_cons (sep : Text) :
    ∀ (ss : List Text) (s : Text),
      pyJoin sep (s :: ss) = s ++ (ss.map (fun t => sep ++ t)).flatten
  | [], s => by simp [pyJoin]
  | q :: ss, s => by
    rw [pyJoin, pyJoin_cons sep ss q]
    simp

lemma glue_nil_length_le (sep : Text) :
    ∀ (ss : List Text), (glue sep [] ss).length ≤ (pyJoin sep ss).length
  | [] => by simp [glue, pyJoin]
  | s :: ss => by
    rw [glue]
    simp only [ne_eq, not_true_eq_false, if_false]
    by_cases h : s = []
    · subst h
      cases ss with
      | nil => simp [glue, pyJoin]
      | cons q t =>
        calc (glue sep [] (q :: t)).length ≤ (pyJoin sep (q :: t)).length :=
              glue_nil_length_le sep (q :: t)
          _ ≤ (pyJoin sep ([] :: q :: t)).length := by rw [pyJoin]; simp
    · rw [glue_of_ne_nil sep ss s h, pyJoin_cons sep ss s]

lemma dropWhile_ws_append (p : Char → Bool) :
    ∀ (ws l : Text), (∀ c ∈ ws, p c = true) →
      (ws ++ l).dropWhile p = l.dropWhile p
  | [], l, _ => rfl
  | w :: ws, l, h => by
    rw [List.cons_append, List.dropWhile_cons, if_pos (h w (by simp))]
    exact dropWhile_ws_append p ws l (fun c hc => h c (by simp [hc]))

lemma pyStrip_ws_append (ws l : Text) (h : ∀ c ∈ ws, isPySpace c = true) :
    pyStrip (ws ++ l) = pyStrip l := by
  rw [pyStrip, pyStrip, dropWhile_ws_append isPySpace ws l h]

lemma glue_nil_strip (sep : Text) (hws : ∀ c ∈ sep, isPySpace c = true) :
    ∀ (ss : List Text), pyStrip (glue sep [] ss) = pyStrip (pyJoin sep ss)
  | [] => by simp [glue, pyJoin]
  | s :: ss => by
    rw [glue]
    simp only [ne_eq, not_true_eq_false, if_false]
    by_cases h : s = []
    · subst h
      cases ss with
      | nil => simp [glue, pyJoin]
      | cons q t =>
        rw [glue_nil_strip sep hws (q :: t)]
        show pyStrip (pyJoin sep (q :: t)) = pyStrip (pyJoin sep ([] :: q :: t))
        rw [pyJoin, List.nil_append, pyStrip_ws_append sep _ hws]
    · rw [glue_of_ne_nil sep ss s h, pyJoin_cons sep ss s]

lemma recChunkLoop_small (cfg : Config) :
    ∀ (ss : List Text) (acc : Text),
      (glue cfg.separator acc ss).length ≤ cfg.chunkSize →
      recChunkLoop cfg ss acc =
        if glue cfg.separator acc ss = [] then []
        else [pyStrip (glue cfg.separator acc ss)]
  | [], acc, _ => by
    rw [recChunkLoop, glue]
    by_cases h : acc = [] <;> simp [h]
  | s :: ss, acc, h => by
    rw [glue] at h ⊢
    by_cases hacc : acc = []
    · subst hacc
      simp only [ne_eq, not_true_eq_false, if_false] at h ⊢
      have hs : s.length ≤ cfg.chunkSize :=
        Nat.le_trans (glue_length_ge cfg.separator ss s) h
      rw [recChunkLoop]
      by_cases hC : ([] : Text).length + s.length + cfg.separator.length > cfg.chunkSize
      · rw [if_pos hC, if_neg (Nat.not_lt.mpr hs)]
        simp only [ne_eq, not_true_eq_false, if_false, List.nil_append]
        exact recChunkLoop_small cfg ss s h
      · rw [if_neg hC]
        simp only [ne_eq, not_true_eq_false, if_false]
        exact recChunkLoop_small cfg ss s h
    · rw [if_pos hacc] at h ⊢
      have hbound : (acc ++ cfg.separator ++ s).length ≤ cfg.chunkSize :=
        Nat.le_trans (glue_length_ge cfg.separator ss _) h
      have hC : ¬ (acc.length + s.length + cfg.separator.length > cfg.chunkSize) := by
        simp only [List.length_append] at hbound
        omega
      rw [recChunkLoop, if_neg hC, if_pos hacc]
      exact recChunkLoop_small cfg ss (acc ++ cfg.separator ++ s) h

lemma findMeta_merge_right (b n : List (String × MetaVal)) (k : String) (v : MetaVal)
    (h : findMeta k n = some v) : findMeta k (mergeMeta b n) = some v := by
  induction b with
  | nil => simpa [mergeMeta] using h
  | cons p b ih =>
    by_cases hk : (findMeta p.1 n).isNone
    · have hne : ¬ p.1 = k := by
        intro he
        rw [he, h] at hk
        simp at hk
      simpa [mergeMeta, findMeta, hk, hne] using ih
    · simpa [mergeMeta, findMeta, hk] using ih

lemma findMeta_merge_none (b n : List (String × MetaVal)) (k : String)
    (hb : findMeta k b = none) (hn : findMeta k n = none) :
    findMeta k (mergeMeta b n) = none := by
  induction b with
  | nil => simpa [mergeMeta] using hn
  | cons p b ih =>
    have hne : ¬ p.1 = k := by
      intro he
      rw [findMeta, if_pos he] at hb
      exact (Option.some_ne_none _ hb)
    rw [findMeta, if_neg hne] at hb
    by_cases hk : (findMeta p.1 n).isNone
    · simpa [mergeMeta, findMeta, hk, hne] using ih hb
    · simpa [mergeMeta, findMeta, hk] using ih hb

lemma directChunks_metadata (md : List (String × MetaVal)) :
    ∀ (L : List (Nat × MdSection)) (n : Nat) (c : Chunk), c ∈ directChunks md L n →
      (findMeta "chunk_index" md = none → findMeta "chunk_index" c.metadata = none) ∧
      findMeta "section_header" c.metadata ≠ none
  | [], _, c, hc => by simp [directChunks] at hc
  | (i, sec) :: rest, n, c, hc => by
    rw [directChunks, List.mem_cons] at hc
    rcases hc with hc | hc
    · subst hc
      constructor
      · intro hmd
        exact findMeta_merge_none md _ _ hmd rfl
      · have : findMeta "section_header"
            [("section_header", MetaVal.str sec.header),
             ("section_level", MetaVal.nat sec.level),
             ("section_index", MetaVal.nat i)] = some (MetaVal.str sec.header) := rfl
        simp [findMeta_merge_right md _ _ _ this]
    · exact directChunks_metadata md rest (n + 1) c hc

/-! ## Claim theorems -/

/-- C1: the claim states that every pre-overlap chunk has length at most
`chunk_size`, and that the recursive fallback returns the pieces of the
first successful non-primary separator, or fixed-width character slices
only when no separator succeeds.  The code violates this: `chunks` is
not reset between separator attempts in `_split_large_text`, so with
`chunk_size = 3` and the separator-free input `"aaaaa"` the pre-overlap
result contains four length-5 copies of the whole input (one per failed
separator attempt) ahead of the two character slices, and the size
bound fails. -/
theorem C1_fallback_debris_bug :
    recursiveChunk ⟨3, 0, ['\n', '\n']⟩ "aaaaa".toList =
      [List.replicate 5 'a', List.replicate 5 'a', List.replicate 5 'a',
       List.replicate 5 'a', "aaa".toList, "aa".toList] ∧
    (recursiveChunk ⟨3, 0, ['\n', '\n']⟩ "aaaaa".toList).all
      (fun c => c.length ≤ 3) = false := by
  decide

/-- C2: the claim states that a whitespace-and-punctuation-free token of
length `10 × chunk_size` yields exactly 10 character-sliced chunks.
With `chunk_size = 1` the code instead returns 14 chunks: each of the
four non-empty fallback separators appends the whole unsplittable token
to the shared `chunks` list before the 10 character slices are
appended. -/
theorem C2_termination_count_bug :
    recursiveChunk ⟨1, 0, ['\n', '\n']⟩ (List.replicate 10 'a') =
      List.replicate 4 (List.replicate 10 'a') ++ List.replicate 10 ['a'] ∧
    (recursiveChunk ⟨1, 0, ['\n', '\n']⟩ (List.replicate 10 'a')).length = 14 := by
  decide

/-- C3 counterexample: on `["AAAA","BBBB","CCCC"]` with `overlap = 2`
the code does not produce the claimed middle chunk `"AA BBBB CC"` and
last chunk `"CC CCCC"`. -/
theorem C3_overlap_claim_false :
    applyOverlap 2 ["AAAA".toList, "BBBB".toList, "CCCC".toList] ≠
      ["AAAA BB".toList, "AA BBBB CC".toList, "CC CCCC".toList] := by
  decide

/-- C3 amended: the first chunk is `"AAAA BB"`, the middle chunk is
`"A BBBB C"` (each interior window takes `overlap // 2 = 1` character
from each neighbour), and the last chunk is `"BB CCCC"` (the last
`overlap = 2` characters of the *previous* pre-overlap chunk), with all
windows taken from the pre-overlap chunk boundaries. -/
theorem C3_overlap_amended :
    applyOverlap 2 ["AAAA".toList, "BBBB".toList, "CCCC".toList] =
      ["AAAA BB".toList, "A BBBB C".toList, "BB CCCC".toList] := by
  decide

/-- C4 counterexample: a markdown document with a small section followed
by an oversized one gets chunk ids `[0, 0, 1, 2, 3, 4, 5, 6, 7]` — the
sub-chunks of the delegated section restart at 0, so the ids are not
the contiguous range `0..n-1`. -/
theorem C4_md_ids_claim_false :
    ¬ ((MarkdownChunker.chunkText ⟨10, 0, ['\n', '\n']⟩ []
          "# A\nxx\n# B\nyyyy yyyy yyyy".toList).map Chunk.chunkId =
        List.range (MarkdownChunker.chunkText ⟨10, 0, ['\n', '\n']⟩ []
          "# A\nxx\n# B\nyyyy yyyy yyyy".toList).length) := by
  decide

/-- C4 amended: a plain chunking call always emits chunk ids exactly
`0..n-1` in emission order; a markdown call does so when every section's
reconstituted text fits within `chunk_size` (each direct chunk gets the
number of chunks already emitted), but sub-chunks of an oversized,
delegated section restart numbering at 0, so the ids of a markdown call
are not globally contiguous in general. -/
theorem C4_ids_amended :
    (∀ (cfg : Config) (md : List (String × MetaVal)) (text : Text),
      (TextChunker.chunkText cfg md text).map Chunk.chunkId =
        List.range (TextChunker.chunkText cfg md text).length) ∧
    (∀ (cfg : Config) (md : List (String × MetaVal)) (text : Text),
      (∀ p ∈ (mdSections text).enum,
          (pyJoin ['\n'] p.2.content).length ≤ cfg.chunkSize) →
      (MarkdownChunker.chunkText cfg md text).map Chunk.chunkId =
        List.range (MarkdownChunker.chunkText cfg md text).length) := by
  constructor
  · intro cfg md text
    unfold TextChunker.chunkText
    by_cases h : text = []
    · simp [h]
    · rw [if_neg h]
      simp [List.map_map, Function.comp_def, List.enum_map_fst]
  · intro cfg md text h
    unfold MarkdownChunker.chunkText
    rw [mdEmit_all_fit cfg md _ [] h]
    simp [directChunks_map_chunkId, directChunks_length, List.range_eq_range']

/-- C4 witness: a two-section markdown document whose sections both fit
the default budget gets the contiguous ids `0, 1`. -/
theorem C4_ids_amended_witness :
    (MarkdownChunker.chunkText ⟨512, 50, ['\n', '\n']⟩ [] "# A\nxx\n## B\nyy".toList).map
        Chunk.chunkId =
      List.range (MarkdownChunker.chunkText ⟨512, 50, ['\n', '\n']⟩ []
        "# A\nxx\n## B\nyy".toList).length :=
  C4_ids_amended.2 ⟨512, 50, ['\n', '\n']⟩ [] "# A\nxx\n## B\nyy".toList (by decide)

/-- C5 counterexample: a call with `chunk_overlap = chunk_size = 4`
produces a complete (non-empty) chunk sequence; no configuration error
is raised at call time (the chunking code contains no validation and no
`raise` at all, which is why its embedding is total). -/
theorem C5_no_config_error :
    TextChunker.chunkText ⟨4, 4, ['\n', '\n']⟩ [] "aaaa aaaa".toList ≠ [] := by
  decide

/-- C5 amended: the constructor stores `chunk_size` and `chunk_overlap`
unvalidated and a call with `chunk_overlap ≥ chunk_size` proceeds
normally, here producing 8 chunks; a non-positive `chunk_size` raises
nothing at call time either (zero only triggers a `ValueError` deep in
the character-slicing fallback, after chunks have been accumulated). -/
theorem C5_amended_unvalidated :
    (TextChunker.chunkText ⟨4, 4, ['\n', '\n']⟩ [] "aaaa aaaa".toList).length = 8 := by
  decide

/-- C6 counterexample: the markdown chunker on the empty string does not
return an empty sequence (it emits one chunk, with empty text). -/
theorem C6_md_empty_claim_false :
    MarkdownChunker.chunkText ⟨512, 50, ['\n', '\n']⟩ [] [] ≠ [] := by
  decide

/-- C6 amended: the plain splitter returns an empty sequence on the
empty string (guard `if not text`), but the markdown chunker has no
such guard: on `""` it builds one headerless section whose content is
the single empty line, and emits one chunk with empty text, header
`""`, level 0 and section index 0. -/
theorem C6_empty_amended :
    (∀ (cfg : Config) (md : List (String × MetaVal)),
      TextChunker.chunkText cfg md [] = []) ∧
    (∀ (cfg : Config) (md : List (String × MetaVal)),
      MarkdownChunker.chunkText cfg md [] =
        [{ text := [],
           metadata := mergeMeta md
             [("section_header", MetaVal.str []),
              ("section_level", MetaVal.nat 0),
              ("section_index", MetaVal.nat 0)],
           chunkId := 0 }]) := by
  constructor
  · intro cfg md
    simp [TextChunker.chunkText]
  · intro cfg md
    show mdEmit cfg md (mdSections []).enum [] = _
    have hsec : mdSections [] = [⟨[], 0, [[]]⟩] := rfl
    rw [hsec]
    show mdEmit cfg md [(0, ⟨[], 0, [[]]⟩)] [] = _
    simp only [mdEmit, pyJoin]
    rw [if_neg (by simp)]
    simp [mdEmit]

/-- C7 counterexample: a directly-emitted markdown section chunk has no
`chunk_index` key in its metadata (only the section keys). -/
theorem C7_md_metadata_claim_false :
    (MarkdownChunker.chunkText ⟨512, 50, ['\n', '\n']⟩ [] "# A\nx".toList).map
      (fun c => findMeta "chunk_index" c.metadata) = [none] := by
  decide

/-- C7 amended: every chunk emitted by a plain chunking call (and hence
every delegated sub-chunk of an oversized markdown section) has
metadata with the keys `chunk_index`, `total_chunks` and `chunk_size`,
the latter equal to the emitted text's character length; but a
directly-emitted markdown section chunk carries only the section keys
(`section_header` etc.) and lacks all three. -/
theorem C7_metadata_amended :
    (∀ (cfg : Config) (md : List (String × MetaVal)) (text : Text) (c : Chunk),
      c ∈ TextChunker.chunkText cfg md text →
      findMeta "chunk_index" c.metadata ≠ none ∧
      findMeta "total_chunks" c.metadata ≠ none ∧
      findMeta "chunk_size" c.metadata = some (MetaVal.nat c.text.length)) ∧
    (∀ (cfg : Config) (md : List (String × MetaVal)) (text : Text) (c : Chunk),
      (∀ p ∈ (mdSections text).enum,
          (pyJoin ['\n'] p.2.content).length ≤ cfg.chunkSize) →
      findMeta "chunk_index" md = none →
      c ∈ MarkdownChunker.chunkText cfg md text →
      findMeta "chunk_index" c.metadata = none ∧
      findMeta "section_header" c.metadata ≠ none) := by
  constructor
  · intro cfg md text c hc
    unfold TextChunker.chunkText at hc
    by_cases h : text = []
    · simp [h] at hc
    · rw [if_neg h] at hc
      rw [List.mem_map] at hc
      obtain ⟨p, _, hp⟩ := hc
      subst hp
      set new : List (String × MetaVal) :=
        [("chunk_index", MetaVal.nat p.1),
         ("total_chunks", MetaVal.nat (recursiveChunk cfg text).length),
         ("chunk_size", MetaVal.nat p.2.length)] with hnew
      have h1 : findMeta "chunk_index" new = some (MetaVal.nat p.1) := rfl
      have h2 : findMeta "total_chunks" new =
          some (MetaVal.nat (recursiveChunk cfg text).length) := rfl
      have h3 : findMeta "chunk_size" new = some (MetaVal.nat p.2.length) := rfl
      refine ⟨?_, ?_, ?_⟩
      · rw [findMeta_merge_right md new _ _ h1]
        simp
      · rw [findMeta_merge_right md new _ _ h2]
        simp
      · exact findMeta_merge_right md new _ _ h3
  · intro cfg md text c hfit hmd hc
    rw [MarkdownChunker.chunkText, mdEmit_all_fit cfg md _ [] hfit,
      List.nil_append] at hc
    have h := directChunks_metadata md _ _ c hc
    exact ⟨h.1 hmd, h.2⟩

/-- C7 witness: the single chunk of a plain call on `"ab"` carries the
three keys, with `chunk_size` 2. -/
theorem C7_metadata_amended_witness :
    findMeta "chunk_index"
        (⟨"ab".toList,
          [("chunk_index", MetaVal.nat 0), ("total_chunks", MetaVal.nat 1),
           ("chunk_size", MetaVal.nat 2)], 0, none⟩ : Chunk).metadata ≠ none ∧
    findMeta "total_chunks"
        (⟨"ab".toList,
          [("chunk_index", MetaVal.nat 0), ("total_chunks", MetaVal.nat 1),
           ("chunk_size", MetaVal.nat 2)], 0, none⟩ : Chunk).metadata ≠ none ∧
    findMeta "chunk_size"
        (⟨"ab".toList,
          [("chunk_index", MetaVal.nat 0), ("total_chunks", MetaVal.nat 1),
           ("chunk_size", MetaVal.nat 2)], 0, none⟩ : Chunk).metadata =
      some (MetaVal.nat ("ab".toList : Text).length) :=
  C7_metadata_amended.1 ⟨4, 0, ['\n', '\n']⟩ [] "ab".toList _ (by decide)

/-- C8 counterexample: the whitespace-only input `" "` produces one
chunk whose text is empty — the emptiness guard checks the buffer
before trimming, so a whitespace-only buffer is emitted rather than
dropped. -/
theorem C8_empty_chunk_claim_false :
    (TextChunker.chunkText ⟨512, 50, ['\n', '\n']⟩ [] [' ']).map Chunk.text = [[]] := by
  decide

/-- C8 amended: the guard `if current:` tests the buffer before
`strip()`, so a whitespace-only input yields a single chunk with empty
text (and `chunk_size` metadata 0) instead of being dropped. -/
theorem C8_amended_whitespace :
    TextChunker.chunkText ⟨512, 50, ['\n', '\n']⟩ [] [' '] =
      [{ text := [],
         metadata := [("chunk_index", MetaVal.nat 0), ("total_chunks", MetaVal.nat 1),
                      ("chunk_size", MetaVal.nat 0)],
         chunkId := 0 }] := by
  decide

/-- C10: for a markdown document in which every section's reconstituted
text fits within `chunk_size`, the markdown chunker's output is
identical for any two values of `chunk_overlap`: every section is
emitted directly and the overlap windower (which is only reached
through delegation to the plain splitter) is never applied. -/
theorem C10_overlap_independence (size o₁ o₂ : Nat) (sep : Text)
    (md : List (String × MetaVal)) (text : Text)
    (h : ∀ p ∈ (mdSections text).enum,
        (pyJoin ['\n'] p.2.content).length ≤ size) :
    MarkdownChunker.chunkText ⟨size, o₁, sep⟩ md text =
      MarkdownChunker.chunkText ⟨size, o₂, sep⟩ md text := by
  rw [MarkdownChunker.chunkText, MarkdownChunker.chunkText,
    mdEmit_all_fit ⟨size, o₁, sep⟩ md _ [] h,
    mdEmit_all_fit ⟨size, o₂, sep⟩ md _ [] h]

/-- C10 witness: a two-section document that fits the budget produces
the same chunks with overlap 0 and overlap 499. -/
theorem C10_overlap_independence_witness :
    MarkdownChunker.chunkText ⟨512, 0, ['\n', '\n']⟩ [] "# A\nxx\n## B\nyy".toList =
      MarkdownChunker.chunkText ⟨512, 499, ['\n', '\n']⟩ [] "# A\nxx\n## B\nyy".toList :=
  C10_overlap_independence 512 0 499 ['\n', '\n'] [] "# A\nxx\n## B\nyy".toList
    (by decide)

/-- C9 counterexample: the non-empty input `"\n\n"` (length 2, well
within `chunk_size = 512`) yields zero chunks, not one: every primary
split is empty, so no buffer is ever flushed. -/
theorem C9_sep_only_claim_false :
    TextChunker.chunkText ⟨512, 50, ['\n', '\n']⟩ [] "\n\n".toList = [] := by
  decide

/-- C9 amended: for every string of length at most `chunk_size` that is
non-empty *after trimming*, the plain chunking call (with the default
primary separator) returns exactly one chunk whose text is the trimmed
input; an input consisting only of whitespace/separators yields zero
chunks or one empty chunk instead. -/
theorem C9_idempotence_amended (cs o : Nat) (md : List (String × MetaVal))
    (text : Text) (hlen : text.length ≤ cs) (hne : pyStrip text ≠ []) :
    TextChunker.chunkText ⟨cs, o, ['\n', '\n']⟩ md text =
      [{ text := pyStrip text,
         metadata := mergeMeta md
           [("chunk_index", MetaVal.nat 0),
            ("total_chunks", MetaVal.nat 1),
            ("chunk_size", MetaVal.nat (pyStrip text).length)],
         chunkId := 0 }] := by
  have htext : text ≠ [] := by
    intro he
    exact hne (by rw [he]; rfl)
  have hws : ∀ c ∈ (['\n', '\n'] : Text), isPySpace c = true := by decide
  have hjoin : pyJoin ['\n', '\n'] (pySplit ['\n', '\n'] text) = text :=
    pyJoin_pySplit ['\n', '\n'] text
  have hglue_le : (glue ['\n', '\n'] [] (pySplit ['\n', '\n'] text)).length ≤ cs := by
    calc (glue ['\n', '\n'] [] (pySplit ['\n', '\n'] text)).length
        ≤ (pyJoin ['\n', '\n'] (pySplit ['\n', '\n'] text)).length :=
          glue_nil_length_le ['\n', '\n'] (pySplit ['\n', '\n'] text)
      _ = text.length := by rw [hjoin]
      _ ≤ cs := hlen
  have hstrip : pyStrip (glue ['\n', '\n'] [] (pySplit ['\n', '\n'] text)) =
      pyStrip text := by
    rw [glue_nil_strip ['\n', '\n'] hws (pySplit ['\n', '\n'] text), hjoin]
  have hgl : glue ['\n', '\n'] [] (pySplit ['\n', '\n'] text) ≠ [] := by
    intro he
    rw [he] at hstrip
    exact hne (by rw [← hstrip]; rfl)
  have hloop : recChunkLoop ⟨cs, o, ['\n', '\n']⟩ (pySplit ['\n', '\n'] text) [] =
      [pyStrip text] := by
    rw [recChunkLoop_small ⟨cs, o, ['\n', '\n']⟩ (pySplit ['\n', '\n'] text) [] hglue_le,
      if_neg hgl, hstrip]
  have hrec : recursiveChunk ⟨cs, o, ['\n', '\n']⟩ text = [pyStrip text] := by
    rw [recursiveChunk]
    show (if o > 0 then
        applyOverlap o (recChunkLoop ⟨cs, o, ['\n', '\n']⟩ (pySplit ['\n', '\n'] text) [])
      else recChunkLoop ⟨cs, o, ['\n', '\n']⟩ (pySplit ['\n', '\n'] text) []) = _
    rw [hloop]
    by_cases ho : o > 0
    · rw [if_pos ho]
      rfl
    · rw [if_neg ho]
  rw [TextChunker.chunkText, if_neg htext]
  show ((recursiveChunk ⟨cs, o, ['\n', '\n']⟩ text).enum.map _) = _
  rw [hrec]
  rfl

/-- C9 witness: `"  hi there "` (length 11 ≤ 512, trims to
`"hi there"`) chunks to exactly one chunk holding the trimmed text. -/
theorem C9_idempotence_amended_witness :
    TextChunker.chunkText ⟨512, 50, ['\n', '\n']⟩ [] "  hi there ".toList =
      [{ text := pyStrip "  hi there ".toList,
         metadata := mergeMeta []
           [("chunk_index", MetaVal.nat 0),
            ("total_chunks", MetaVal.nat 1),
            ("chunk_size", MetaVal.nat (pyStrip "  hi there ".toList).length)],
         chunkId := 0 }] :=
  C9_idempotence_amended 512 50 [] "  hi there ".toList (by decide) (by decide)

end RagLocal
